import Mathlib

/-!
Verification of the Juizo Excel task-pane add-in (`src/taskpane/taskpane.ts`)
against its natural-language specification.

The development shallowly embeds the parts of the task pane that the claims
talk about:

* the per-cell sanitization applied in `outputToExcel` before any write;
* the post-transform export pipeline (row-limit check, empty check, host write);
* the pre-write table-name collision lookup;
* the batched write loop with its batch-failure / row-failure / sentinel
  fallback policy;
* the settings-persistence phase after a successful write;
* the Vega auto-update session state machine
  (`runVegaPreview` / `setupVegaAutoUpdate` / `closeVegaEditor` / table-changed
  events);
* the empty-query default in `runPreview` / `outputToExcel`.

JavaScript strings are modelled as `List Char`; host failures (batch commit,
row commit, sentinel commit, table lookup) are modelled by explicit oracles so
that every control path of the `try`/`catch` structure is represented.
-/

namespace Juizo

/-! ### Cell values and sanitization (`outputToExcel`, lines 228-262)

A cell value coming out of `resultTable.objects()` is `undefined`/`null`, a
number (possibly `NaN`), a boolean, a `Date`, a string, or some other
object/array.  For a non-Date object the code applies `JSON.stringify`,
which either yields a string or throws; we model that outcome as an
`Option (List Char)` carried by the `vobj` constructor. -/

inductive CellValue where
  | vnull : CellValue
  | vnan : CellValue
  | vnum (x : Int) : CellValue
  | vbool (b : Bool) : CellValue
  | vdate (ms : Int) : CellValue
  | vstr (s : List Char) : CellValue
  | vobj (json : Option (List Char)) : CellValue
deriving DecidableEq

/-- The regex `[\x00-\x08\x0B\x0C\x0E-\x1F]` of the source: characters the
sanitizer removes from strings. -/
def isBannedCtl (c : Char) : Bool :=
  (c.toNat ≤ 8) || (c.toNat == 11) || (c.toNat == 12) ||
    (14 ≤ c.toNat && c.toNat ≤ 31)

/-- A character survives `val.replace(/[\x00-\x08\x0B\x0C\x0E-\x1F]/g, "")`. -/
def keepChar (c : Char) : Bool := !(isBannedCtl c)

/-- The literal `"...(TRUNCATED)"` appended by the sanitizer. -/
def truncSuffix : List Char := "...(TRUNCATED)".toList

/-- The literal `"[Circular/Error]"` used when `JSON.stringify` throws. -/
def circularPlaceholder : List Char := "[Circular/Error]".toList

/-- The string branch of the sanitizer: strip banned control characters, then
truncate to 32000 characters plus `"...(TRUNCATED)"` if still longer. -/
def sanStr (s : List Char) : List Char :=
  let t := s.filter keepChar
  if 32000 < t.length then t.take 32000 ++ truncSuffix else t

/-- `JSON.stringify(val)` result, or the fixed placeholder when it throws. -/
def jsonOrPlaceholder (o : Option (List Char)) : List Char :=
  o.getD circularPlaceholder

/-- Per-cell sanitization of `outputToExcel` (lines 228-262): `null`/`undefined`
and `NaN` map to the empty string; a non-Date object is serialized (or replaced
by the placeholder) and the resulting string, like every string value, is
stripped of banned control characters and truncated; numbers, booleans and
dates pass through unchanged. -/
def sanitizeCell : CellValue → CellValue
  | .vnull => .vstr []
  | .vnan => .vstr []
  | .vobj o => .vstr (sanStr (jsonOrPlaceholder o))
  | .vstr s => .vstr (sanStr s)
  | .vnum x => .vnum x
  | .vbool b => .vbool b
  | .vdate ms => .vdate ms

theorem filter_keepChar_idem (s : List Char) :
    (s.filter keepChar).filter keepChar = s.filter keepChar := by
  simp [List.filter_filter]

theorem filter_keepChar_of_all (s : List Char) (h : s.all keepChar = true) :
    s.filter keepChar = s := by
  apply List.filter_eq_self.2
  intro a ha
  exact (List.all_eq_true.1 h) a ha

theorem truncSuffix_all_keep : truncSuffix.all keepChar = true := by decide

theorem truncSuffix_length : truncSuffix.length = 14 := by decide

/-- The string sanitizer is idempotent. -/
theorem sanStr_idem (s : List Char) : sanStr (sanStr s) = sanStr s := by
  unfold sanStr
  simp only []
  by_cases h : 32000 < (s.filter keepChar).length
  · simp only [h, if_pos]
    have htk : ((s.filter keepChar).take 32000).all keepChar = true := by
      rw [List.all_eq_true]
      intro a ha
      have := List.mem_of_mem_take ha
      exact List.of_mem_filter this
    have hfil :
        (((s.filter keepChar).take 32000 ++ truncSuffix).filter keepChar)
          = (s.filter keepChar).take 32000 ++ truncSuffix := by
      apply List.filter_eq_self.2
      intro a ha
      rcases List.mem_append.1 ha with h1 | h2
      · exact (List.all_eq_true.1 htk) a h1
      · exact (List.all_eq_true.1 truncSuffix_all_keep) a h2
    rw [hfil]
    have hlen : ((s.filter keepChar).take 32000).length = 32000 := by
      rw [List.length_take]
      omega
    have hlen2 :
        ((s.filter keepChar).take 32000 ++ truncSuffix).length = 32014 := by
      rw [List.length_append, hlen, truncSuffix_length]
    rw [if_pos (by rw [hlen2]; norm_num)]
    rw [List.take_append_eq_append_take, hlen]
    simp
  · simp only [h, if_neg, if_false]
    rw [filter_keepChar_idem]
    rw [if_neg h]

/-! ### Substring test (`e.message.indexOf("already exists") > -1`) -/

/-- `hay.indexOf(needle) > -1` of JavaScript: some suffix of `hay` starts with
`needle`. -/
def hasSub (hay needle : List Char) : Bool :=
  hay.tails.any (fun t => needle.isPrefixOf t)

theorem hasSub_append_right (x y n : List Char) (h : hasSub y n = true) :
    hasSub (x ++ y) n = true := by
  induction x with
  | nil => simpa using h
  | cons c cs ih =>
    simp only [List.cons_append, hasSub, List.tails_cons, List.any_cons,
      Bool.or_eq_true]
    exact Or.inr ih

/-! ### Post-transform export pipeline (`outputToExcel`, lines 213-264)

After the user transform runs, the code checks `resultTable.numRows() >
1000000` and rejects with the row-limit message, then checks
`objects.length === 0` and rejects with the empty-result message, and only
then enters `Excel.run` to perform host writes.  `objects.length` equals
`numRows`. -/

inductive ExportStep where
  | rejectRowLimit : ExportStep
  | rejectEmpty : ExportStep
  | hostWrite : ExportStep
deriving DecidableEq

/-- The post-transform steps of `outputToExcel` as a function of the result's
row count: the row-limit rejection (lines 214-217), the empty-result
rejection (lines 221-224), or proceeding to the host write (line 264). -/
def exportAfterTransform (numRows : Nat) : List ExportStep :=
  if 1000000 < numRows then [.rejectRowLimit]
  else if numRows == 0 then [.rejectEmpty]
  else [.hostWrite]

/-! ### Table-name collision lookup (`outputToExcel`, lines 265-285)

Inside `Excel.run` the code tries `tables.getItem(name)` + `sync`.  If the
lookup succeeds it throws `"Table '<name>' already exists. ..."`; the `catch`
then proceeds when the error is the host's `ItemNotFound`, rethrows when the
message contains `"already exists"`, and silently ignores every other error
(falling through to the table creation). -/

inductive TableLookup where
  /-- `getItem` + `sync` succeeded: a table with the requested name exists. -/
  | success : TableLookup
  /-- `getItem` + `sync` threw a host error with the given code and message. -/
  | hostError (code : List Char) (msg : List Char) : TableLookup
deriving DecidableEq

/-- The host's error code for a missing table. -/
def itemNotFoundCode : List Char := "ItemNotFound".toList

/-- The substring the catch block searches for in the error message. -/
def alreadyExistsNeedle : List Char := "already exists".toList

/-- The message thrown when the pre-write lookup finds an existing table. -/
def collisionMessage (name : List Char) : List Char :=
  "Table '".toList ++ name ++
    "' already exists. Please choose a different name.".toList

/-- The pre-write name-collision check of `outputToExcel` (lines 265-285):
`Except.ok ()` means the code falls through to creating the sheet and table,
`Except.error m` means the error `m` escapes the catch block and aborts the
write. -/
def checkNameCollision (outputTableName : List Char) (look : TableLookup) :
    Except (List Char) Unit :=
  match look with
  | .success =>
      -- the thrown collision error is not an `OfficeExtension.Error`, so the
      -- catch rethrows it iff its message contains "already exists"
      if hasSub (collisionMessage outputTableName) alreadyExistsNeedle then
        .error (collisionMessage outputTableName)
      else .ok ()
  | .hostError code msg =>
      if code = itemNotFoundCode then .ok ()
      else if hasSub msg alreadyExistsNeedle then .error msg
      else .ok ()

/-! ### Empty-query default (`runPreview` lines 155-158, `outputToExcel`
lines 188-191) -/

/-- Whitespace for JavaScript's `String.prototype.trim`. -/
def isJsWhitespace (c : Char) : Bool :=
  [9, 10, 11, 12, 13, 32, 160, 0x1680, 0x2000, 0x2001, 0x2002, 0x2003,
   0x2004, 0x2005, 0x2006, 0x2007, 0x2008, 0x2009, 0x200A, 0x2028, 0x2029,
   0x202F, 0x205F, 0x3000, 0xFEFF].contains c.toNat

/-- JavaScript `code.trim()`. -/
def jsTrim (s : List Char) : List Char :=
  ((s.dropWhile isJsWhitespace).reverse.dropWhile isJsWhitespace).reverse

/-- `if (!code || code.trim() === "") code = "dt";` — the empty-query default
shared verbatim by `runPreview` and `outputToExcel`. -/
def defaultQueryCode (code : List Char) : List Char :=
  if code.isEmpty || (jsTrim code).isEmpty then "dt".toList else code

/-! ### Settings persistence after a successful write (`outputToExcel`,
lines 341-360)

After `Excel.run` completes, the code calls `settings.set(name, code)` and
`saveAsync`; a failed save appends `" (Warning: Failed to save query)"` to the
message area and resolves (never rejects).  Line 360 then unconditionally
assigns the success message to the message area. -/

structure DocSettings where
  entries : List (List Char × List Char)
deriving DecidableEq

/-- `Office.context.document.settings.set(key, value)`: replace any previous
value stored under the key. -/
def settingsSet (st : DocSettings) (k v : List Char) : DocSettings :=
  ⟨(k, v) :: st.entries.filter (fun p => p.1 != k)⟩

def warningSuffix : List Char := " (Warning: Failed to save query)".toList

/-- The final message of `outputToExcel`, line 360. -/
def successMessage (name : List Char) : List Char :=
  "Success! Table '".toList ++ name ++ "' created.".toList

structure SettingsPhaseResult where
  /-- Message-area content right after the `saveAsync` callback ran. -/
  duringSaveMessage : List Char
  /-- Message-area content after line 360 (what the user is left with). -/
  finalMessage : List Char
  settings : DocSettings
deriving DecidableEq

/-- The settings-persistence phase of `outputToExcel` (lines 341-360), run
after the host write succeeded: `messageArea` is the message-area content on
entry (the empty string, set at line 186), `saveFails` tells whether the
`saveAsync` commit reports failure. -/
def settingsPhase (messageArea : List Char) (settings : DocSettings)
    (outputTableName code : List Char) (saveFails : Bool) :
    SettingsPhaseResult :=
  let settings1 := settingsSet settings outputTableName code
  let duringMsg := if saveFails then messageArea ++ warningSuffix
                   else messageArea
  { duringSaveMessage := duringMsg
    finalMessage := successMessage outputTableName
    settings := settings1 }

/-! ### Batched write loop (`outputToExcel`, lines 296-335)

The loop walks `values` in slices of `batchSize = 500`, assigns each slice to
the sheet range starting at sheet row `1 + i` and syncs; if the sync throws it
re-writes the slice row by row, falling back to the `"ERROR WRITING ROW"`
sentinel in the row's first cell, and to skipping the row when even the
sentinel sync throws.  Which syncs throw is decided by the host; we model that
with an oracle indexed by the batch start index `i` (for batch syncs) and the
absolute data row index `i + j` (for row and sentinel syncs).  `WriteEvent`
records the range assignments whose sync succeeded. -/

def batchSize : Nat := 500

structure FailureOracle where
  /-- The batch sync at `values` index `i` (a multiple of 500) throws. -/
  batchFails : Nat → Bool
  /-- The single-row retry sync for data row `k` throws. -/
  rowFails : Nat → Bool
  /-- The sentinel sync for data row `k` throws. -/
  sentinelFails : Nat → Bool

inductive WriteEvent where
  /-- A whole batch committed at sheet rows `[startSheetRow, startSheetRow + vals.length)`. -/
  | batchWrite (startSheetRow : Nat) (vals : List (List CellValue)) : WriteEvent
  /-- A single retried row committed at the given sheet row. -/
  | rowWrite (sheetRow : Nat) (vals : List CellValue) : WriteEvent
  /-- The `"ERROR WRITING ROW"` sentinel committed into the first cell of the
  given sheet row. -/
  | sentinelWrite (sheetRow : Nat) : WriteEvent
deriving DecidableEq

/-- The row-by-row retry of a failed batch (lines 314-332): `i` is the batch's
start index into `values`, `j` the position inside the batch; data row `i + j`
lives at sheet row `1 + i + j`. -/
def retryRowsIndexed (ora : FailureOracle) (i : Nat) :
    Nat → List (List CellValue) → List WriteEvent
  | _, [] => []
  | j, r :: rs =>
    (if ora.rowFails (i + j) then
      (if ora.sentinelFails (i + j) then []
       else [.sentinelWrite (1 + i + j)])
     else [.rowWrite (1 + i + j) r]) ++ retryRowsIndexed ora i (j + 1) rs

/-- The batch loop of `outputToExcel` (lines 301-334), started at
`writeBatches ora 0 values`: the committed range assignments, in order. -/
def writeBatches (ora : FailureOracle) (i : Nat)
    (values : List (List CellValue)) : List WriteEvent :=
  match values with
  | [] => []
  | v :: vs =>
    let batchValues := (v :: vs).take batchSize
    (if ora.batchFails i then retryRowsIndexed ora i 0 batchValues
     else [.batchWrite (1 + i) batchValues]) ++
      writeBatches ora (i + batchSize) ((v :: vs).drop batchSize)
termination_by values.length
decreasing_by simp [batchSize]; omega

/-- Accounting outcome of one data row. -/
inductive RowOutcome where
  | written : RowOutcome
  | sentinel : RowOutcome
  | skipped : RowOutcome
deriving DecidableEq

/-- Outcome of data row `k` inside a failed batch's row-by-row retry. -/
def rowRetryStatus (ora : FailureOracle) (k : Nat) : RowOutcome :=
  if ora.rowFails k then
    (if ora.sentinelFails k then .skipped else .sentinel)
  else .written

/-- Per-row outcomes of a failed batch, parallel to `retryRowsIndexed`. -/
def retryStatuses (ora : FailureOracle) (i j : Nat) :
    List (List CellValue) → List RowOutcome
  | [] => []
  | _ :: rs => rowRetryStatus ora (i + j) :: retryStatuses ora i (j + 1) rs

/-- Per-row outcomes of the whole batch loop, parallel to `writeBatches`:
rows of a batch whose sync succeeds are `written`; rows of a failed batch get
their retry outcome. -/
def rowStatuses (ora : FailureOracle) (i : Nat)
    (values : List (List CellValue)) : List RowOutcome :=
  match values with
  | [] => []
  | v :: vs =>
    let batchValues := (v :: vs).take batchSize
    (if ora.batchFails i then retryStatuses ora i 0 batchValues
     else batchValues.map (fun _ => RowOutcome.written)) ++
      rowStatuses ora (i + batchSize) ((v :: vs).drop batchSize)
termination_by values.length
decreasing_by simp [batchSize]; omega

/-- The sheet rows a committed event writes to. -/
def coveredRows : WriteEvent → List Nat
  | .batchWrite s vals => List.range' s vals.length
  | .rowWrite r _ => [r]
  | .sentinelWrite r => [r]

/-- The sheet rows of the non-skipped outcomes, in order, starting at sheet
row `start`. -/
def nonSkippedRows (start : Nat) : List RowOutcome → List Nat
  | [] => []
  | s :: rest =>
      (if s = RowOutcome.skipped then [] else [start]) ++
        nonSkippedRows (start + 1) rest

/-- All sheet rows committed by a list of write events, in order. -/
def coveredRowsAll : List WriteEvent → List Nat
  | [] => []
  | e :: es => coveredRows e ++ coveredRowsAll es

/-! ### Vega auto-update session (`taskpane.ts` lines 13-15, 467-484,
606-640, 664-700)

The module-scope state is `vegaAutoUpdateHandler`, `vegaCurrentTableName`,
`vegaCurrentSpec`.  We additionally track the host's set of live table-change
subscriptions (`subs`), each tagged with a fresh id, so "at most one live
subscription" is a statement about the host and not about the single handler
variable.  `VegaEvent` records renders, handler attachments and removals. -/

structure VegaState where
  /-- Fresh id for the next `onChanged.add` subscription. -/
  nextId : Nat
  /-- Live host-side table-change subscriptions: (id, watched table). -/
  subs : List (Nat × String)
  /-- `vegaAutoUpdateHandler` (line 13): the stored remove-handle, if any. -/
  vegaAutoUpdateHandler : Option Nat
  /-- `vegaCurrentTableName` (line 14). -/
  vegaCurrentTableName : Option String
  /-- `vegaCurrentSpec` (line 15); the spec is opaque, modelled as its text. -/
  vegaCurrentSpec : Option String
deriving DecidableEq

def initialVegaState : VegaState :=
  { nextId := 0, subs := [], vegaAutoUpdateHandler := none,
    vegaCurrentTableName := none, vegaCurrentSpec := none }

inductive VegaEvent where
  /-- `renderVegaChart(tableName, spec, ...)` invoked with these arguments. -/
  | renderChart (tableName : Option String) (spec : Option String) : VegaEvent
  /-- `table.onChanged.add(...)` committed for the given table. -/
  | attachHandler (tableName : String) : VegaEvent
  /-- `vegaAutoUpdateHandler.remove()` committed for the given subscription. -/
  | removeHandler (id : Nat) : VegaEvent
deriving DecidableEq

/-- `setupVegaAutoUpdate(tableName)` (lines 664-700): remove the stored
handler if the stored table name differs from `tableName`, then attach a new
handler if none is stored. -/
def setupVegaAutoUpdate (tableName : String) (st : VegaState) :
    VegaState × List VegaEvent :=
  let (st1, ev1) :=
    match st.vegaAutoUpdateHandler with
    | some id =>
        if st.vegaCurrentTableName ≠ some tableName then
          ({ st with
              subs := st.subs.filter (fun p => p.1 != id),
              vegaAutoUpdateHandler := none }, [VegaEvent.removeHandler id])
        else (st, [])
    | none => (st, [])
  match st1.vegaAutoUpdateHandler with
  | none =>
      ({ st1 with
          subs := st1.subs ++ [(st1.nextId, tableName)],
          vegaAutoUpdateHandler := some st1.nextId,
          nextId := st1.nextId + 1 },
        ev1 ++ [VegaEvent.attachHandler tableName])
  | some _ => (st1, ev1)

/-- `runVegaPreview` success path (lines 620-631): store the parsed spec and
the table name in the globals, render once with the local arguments, then call
`setupVegaAutoUpdate tableName`. -/
def runVegaPreview (tableName spec : String) (st : VegaState) :
    VegaState × List VegaEvent :=
  let st1 := { st with
                vegaCurrentSpec := some spec,
                vegaCurrentTableName := some tableName }
  let (st2, ev1) := setupVegaAutoUpdate tableName st1
  (st2, VegaEvent.renderChart (some tableName) (some spec) :: ev1)

/-- `closeVegaEditor` (lines 467-484): if a handler is stored, remove it and
null the handler, the table name and the spec; otherwise leave all state
untouched. -/
def closeVegaEditor (st : VegaState) : VegaState × List VegaEvent :=
  match st.vegaAutoUpdateHandler with
  | some id =>
      ({ st with
          subs := st.subs.filter (fun p => p.1 != id),
          vegaAutoUpdateHandler := none,
          vegaCurrentTableName := none,
          vegaCurrentSpec := none },
        [VegaEvent.removeHandler id])
  | none => (st, [])

/-- The host delivers a table-changed notification: if any subscription is
live, the attached callback (lines 679-687) runs
`renderVegaChart(vegaCurrentTableName, vegaCurrentSpec, ...)`, reading the
globals at fire time. -/
def fireTableChanged (st : VegaState) : VegaState × List VegaEvent :=
  if st.subs.isEmpty then (st, [])
  else (st, [VegaEvent.renderChart st.vegaCurrentTableName st.vegaCurrentSpec])

inductive VegaOp where
  | preview (tableName spec : String) : VegaOp
  | close : VegaOp
  | fire : VegaOp
deriving DecidableEq

def vegaStep (st : VegaState) (op : VegaOp) : VegaState × List VegaEvent :=
  match op with
  | .preview t s => runVegaPreview t s st
  | .close => closeVegaEditor st
  | .fire => fireTableChanged st

/-- Run a session from the initial module state. -/
def vegaRun (ops : List VegaOp) : VegaState :=
  ops.foldl (fun st op => (vegaStep st op).1) initialVegaState

/-- One step of the bookkeeping for `lastPreview`. -/
def lastPreviewStep (acc : Option (String × String)) (op : VegaOp) :
    Option (String × String) :=
  match op with
  | VegaOp.preview t s => some (t, s)
  | VegaOp.close => none
  | VegaOp.fire => acc

/-- The table/spec arguments of the most recent `preview` not followed by a
`close`. -/
def lastPreview (ops : List VegaOp) : Option (String × String) :=
  ops.foldl lastPreviewStep none

/-- The session invariant tying the mutable globals to the most recent
preview: the stored table name and spec are exactly the arguments of the last
`preview` since the last `close`, and a cleared handler means no preview is
pending. -/
def vegaGlobalsInv (st : VegaState) (acc : Option (String × String)) : Prop :=
  st.vegaCurrentTableName = acc.map Prod.fst ∧
  st.vegaCurrentSpec = acc.map Prod.snd ∧
  (st.vegaAutoUpdateHandler = none → acc = none)

theorem setup_preserves_globals (t : String) (st : VegaState) :
    (setupVegaAutoUpdate t st).1.vegaCurrentTableName =
        st.vegaCurrentTableName ∧
      (setupVegaAutoUpdate t st).1.vegaCurrentSpec = st.vegaCurrentSpec := by
  unfold setupVegaAutoUpdate
  cases hh : st.vegaAutoUpdateHandler with
  | none => simp [hh]
  | some id =>
    by_cases hc : st.vegaCurrentTableName ≠ some t
    · simp [hh, hc]
    · simp [hh, hc]

theorem setup_handler_isSome (t : String) (st : VegaState) :
    (setupVegaAutoUpdate t st).1.vegaAutoUpdateHandler ≠ none := by
  unfold setupVegaAutoUpdate
  cases hh : st.vegaAutoUpdateHandler with
  | none => simp [hh]
  | some id =>
    by_cases hc : st.vegaCurrentTableName ≠ some t
    · simp [hh, hc]
    · simp [hh, hc]

theorem vegaStep_inv (st : VegaState) (acc : Option (String × String))
    (op : VegaOp) (h : vegaGlobalsInv st acc) :
    vegaGlobalsInv (vegaStep st op).1 (lastPreviewStep acc op) := by
  obtain ⟨h1, h2, h3⟩ := h
  cases op with
  | preview t s =>
    simp only [vegaStep, lastPreviewStep, runVegaPreview]
    refine ⟨?_, ?_, ?_⟩
    · rw [(setup_preserves_globals t _).1]
      simp
    · rw [(setup_preserves_globals t _).2]
      simp
    · intro hnone
      exact absurd hnone (setup_handler_isSome t _)
  | close =>
    simp only [vegaStep, lastPreviewStep, closeVegaEditor]
    cases hh : st.vegaAutoUpdateHandler with
    | some id => exact ⟨rfl, rfl, fun _ => rfl⟩
    | none =>
      have hacc : acc = none := h3 hh
      subst hacc
      exact ⟨h1, h2, fun _ => rfl⟩
  | fire =>
    simp only [vegaStep, lastPreviewStep, fireTableChanged]
    by_cases he : st.subs.isEmpty
    · simp only [he, if_pos]
      exact ⟨h1, h2, h3⟩
    · simp only [he, if_neg, if_false]
      exact ⟨h1, h2, h3⟩

theorem vegaFoldl_inv (ops : List VegaOp) :
    ∀ (st : VegaState) (acc : Option (String × String)),
      vegaGlobalsInv st acc →
      vegaGlobalsInv (ops.foldl (fun st op => (vegaStep st op).1) st)
        (ops.foldl lastPreviewStep acc) := by
  induction ops with
  | nil => intro st acc h; simpa using h
  | cons op rest ih =>
    intro st acc h
    simp only [List.foldl_cons]
    exact ih _ _ (vegaStep_inv st acc op h)

theorem vegaRun_inv (ops : List VegaOp) :
    vegaGlobalsInv (vegaRun ops) (lastPreview ops) :=
  vegaFoldl_inv ops initialVegaState none ⟨rfl, rfl, fun _ => rfl⟩

/-! ### Lemmas about the batched write loop -/

theorem nonSkippedRows_cons (s : Nat) (x : RowOutcome) (rest : List RowOutcome) :
    nonSkippedRows s (x :: rest) =
      (if x = RowOutcome.skipped then [] else [s]) ++
        nonSkippedRows (s + 1) rest := rfl

theorem coveredRowsAll_append (a b : List WriteEvent) :
    coveredRowsAll (a ++ b) = coveredRowsAll a ++ coveredRowsAll b := by
  induction a with
  | nil => simp [coveredRowsAll]
  | cons e es ih => simp [coveredRowsAll, ih]

theorem nonSkippedRows_append (a b : List RowOutcome) :
    ∀ s, nonSkippedRows s (a ++ b) =
      nonSkippedRows s a ++ nonSkippedRows (s + a.length) b := by
  induction a with
  | nil => intro s; simp [nonSkippedRows]
  | cons x xs ih =>
    intro s
    rw [List.cons_append, nonSkippedRows_cons, nonSkippedRows_cons, ih (s + 1),
      List.append_assoc, List.length_cons]
    rw [show s + (xs.length + 1) = s + 1 + xs.length from by omega]

theorem nonSkippedRows_replicate_written (n : Nat) :
    ∀ s, nonSkippedRows s (List.replicate n RowOutcome.written) =
      List.range' s n := by
  induction n with
  | zero => intro s; simp [nonSkippedRows]
  | succ m ih =>
    intro s
    rw [List.replicate_succ, List.range'_succ]
    simp only [nonSkippedRows]
    rw [if_neg (by decide), ih (s + 1)]
    simp

theorem retryStatuses_length (ora : FailureOracle) :
    ∀ (batch : List (List CellValue)) (i j : Nat),
      (retryStatuses ora i j batch).length = batch.length := by
  intro batch
  induction batch with
  | nil => intro i j; rfl
  | cons r rs ih => intro i j; simp [retryStatuses, ih]

theorem retry_covered (ora : FailureOracle) :
    ∀ (batch : List (List CellValue)) (i j : Nat),
      coveredRowsAll (retryRowsIndexed ora i j batch) =
        nonSkippedRows (1 + i + j) (retryStatuses ora i j batch) := by
  intro batch
  induction batch with
  | nil => intro i j; rfl
  | cons r rs ih =>
    intro i j
    simp only [retryRowsIndexed, retryStatuses]
    rw [coveredRowsAll_append, ih i (j + 1)]
    simp only [nonSkippedRows]
    have harith : 1 + i + (j + 1) = 1 + i + j + 1 := by omega
    rw [harith]
    congr 1
    by_cases hr : ora.rowFails (i + j)
    · by_cases hs : ora.sentinelFails (i + j)
      · simp [hr, hs, rowRetryStatus, coveredRowsAll]
      · simp [hr, hs, rowRetryStatus, coveredRowsAll, coveredRows]
    · simp [hr, rowRetryStatus, coveredRowsAll, coveredRows]

theorem take_length_of_drop_ne_nil {α : Type} {l : List α} {n : Nat}
    (h : l.drop n ≠ []) : (l.take n).length = n := by
  rw [List.length_take]
  have := List.length_lt_of_drop_ne_nil h
  omega

theorem writeBatches_covered (ora : FailureOracle) :
    ∀ (i : Nat) (values : List (List CellValue)),
      coveredRowsAll (writeBatches ora i values) =
        nonSkippedRows (1 + i) (rowStatuses ora i values) := by
  intro i values
  induction i, values using writeBatches.induct ora with
  | case1 i => rw [writeBatches, rowStatuses]; rfl
  | case2 i v vs ih =>
    rw [writeBatches, rowStatuses]
    rw [coveredRowsAll_append, ih, nonSkippedRows_append]
    by_cases hd : (v :: vs).drop batchSize = []
    · rw [hd]
      simp only [rowStatuses, nonSkippedRows, List.append_nil]
      by_cases hb : ora.batchFails i
      · rw [if_pos hb, if_pos hb, retry_covered]
        norm_num
      · rw [if_neg hb, if_neg hb]
        simp only [coveredRowsAll, coveredRows, List.append_nil]
        rw [List.map_const', nonSkippedRows_replicate_written]
    · have hlen : ((v :: vs).take batchSize).length = batchSize :=
        take_length_of_drop_ne_nil hd
      by_cases hb : ora.batchFails i
      · rw [if_pos hb, if_pos hb, retry_covered, retryStatuses_length, hlen]
        have harith : 1 + i + batchSize = 1 + (i + batchSize) := by omega
        rw [harith]
        simp
      · rw [if_neg hb, if_neg hb]
        simp only [coveredRowsAll, coveredRows, List.append_nil]
        rw [List.map_const', nonSkippedRows_replicate_written,
          List.length_replicate, hlen]
        have harith : 1 + i + batchSize = 1 + (i + batchSize) := by omega
        rw [harith]

theorem rowStatuses_length (ora : FailureOracle) :
    ∀ (i : Nat) (values : List (List CellValue)),
      (rowStatuses ora i values).length = values.length := by
  intro i values
  induction i, values using rowStatuses.induct ora with
  | case1 i => rw [rowStatuses]; rfl
  | case2 i v vs ih =>
    rw [rowStatuses]
    rw [List.length_append, ih]
    by_cases hb : ora.batchFails i
    · rw [if_pos hb, retryStatuses_length]
      simp only [List.length_take, List.length_drop]
      omega
    · rw [if_neg hb]
      simp only [List.length_map, List.length_take, List.length_drop]
      omega

theorem rowOutcome_count_partition (l : List RowOutcome) :
    l.count RowOutcome.written +
      (l.count RowOutcome.sentinel + l.count RowOutcome.skipped) =
        l.length := by
  induction l with
  | nil => rfl
  | cons x xs ih =>
    cases x <;> simp [List.count_cons] <;> omega

theorem mem_nonSkippedRows (l : List RowOutcome) :
    ∀ (s m : Nat),
      m ∈ nonSkippedRows s l ↔
        ∃ p, ∃ hp : p < l.length, m = s + p ∧ l[p] ≠ RowOutcome.skipped := by
  induction l with
  | nil => intro s m; simp [nonSkippedRows]
  | cons x xs ih =>
    intro s m
    rw [nonSkippedRows_cons, List.mem_append]
    constructor
    · rintro (h1 | h2)
      · by_cases hx : x = RowOutcome.skipped
        · rw [if_pos hx] at h1
          simp at h1
        · rw [if_neg hx] at h1
          simp only [List.mem_singleton] at h1
          subst h1
          exact ⟨0, by simp, by simp, by simpa using hx⟩
      · obtain ⟨p, hp, hm, hne⟩ := (ih (s + 1) m).1 h2
        refine ⟨p + 1, by simpa using Nat.succ_lt_succ hp, by omega, ?_⟩
        simpa using hne
    · rintro ⟨p, hp, hm, hne⟩
      cases p with
      | zero =>
        left
        rw [if_neg (by simpa using hne)]
        simp only [List.mem_singleton]
        omega
      | succ q =>
        right
        apply (ih (s + 1) m).2
        exact ⟨q, by simpa using hp, by omega, by simpa using hne⟩

theorem retryStatuses_getElem (ora : FailureOracle) (i : Nat) :
    ∀ (batch : List (List CellValue)) (j k : Nat), k < batch.length →
      (retryStatuses ora i j batch)[k]? =
        some (rowRetryStatus ora (i + j + k)) := by
  intro batch
  induction batch with
  | nil => intro j k hk; simp at hk
  | cons b bs ih =>
    intro j k hk
    cases k with
    | zero => simp [retryStatuses]
    | succ q =>
      simp only [retryStatuses, List.getElem?_cons_succ]
      rw [ih (j + 1) q (by simpa using hk)]
      rw [show i + (j + 1) + q = i + j + (q + 1) from by omega]

theorem rowStatuses_getElem (ora : FailureOracle) :
    ∀ (i : Nat) (values : List (List CellValue)), ∀ k, k < values.length →
      (rowStatuses ora i values)[k]? =
        some (if ora.batchFails (i + batchSize * (k / batchSize))
              then rowRetryStatus ora (i + k) else RowOutcome.written) := by
  intro i values
  induction i, values using rowStatuses.induct ora with
  | case1 i => intro k hk; simp at hk
  | case2 i v vs ih =>
    intro k hk
    rw [rowStatuses]
    by_cases hklt : k < batchSize
    · have hdiv : i + batchSize * (k / batchSize) = i := by
        simp only [batchSize] at hklt ⊢
        omega
      rw [hdiv]
      have hkc : k < ((v :: vs).take batchSize).length := by
        rw [List.length_take]
        omega
      by_cases hb : ora.batchFails i
      · rw [if_pos hb, if_pos hb]
        rw [List.getElem?_append,
          if_pos (show k < (retryStatuses ora i 0
            ((v :: vs).take batchSize)).length from by
              rw [retryStatuses_length]; exact hkc)]
        rw [retryStatuses_getElem ora i _ 0 k hkc]
        rw [show i + 0 + k = i + k from by omega]
      · rw [if_neg hb, if_neg hb]
        rw [List.getElem?_append,
          if_pos (show k < (((v :: vs).take batchSize).map
            (fun x => RowOutcome.written)).length from by
              rw [List.length_map]; exact hkc)]
        rw [List.getElem?_map, List.getElem?_eq_getElem hkc]
        rfl
    · have hge : batchSize ≤ k := by omega
      have hfirst :
          (if ora.batchFails i
           then retryStatuses ora i 0 ((v :: vs).take batchSize)
           else ((v :: vs).take batchSize).map
             (fun _ => RowOutcome.written)).length = batchSize := by
        by_cases hb : ora.batchFails i
        · rw [if_pos hb, retryStatuses_length, List.length_take]
          omega
        · rw [if_neg hb, List.length_map, List.length_take]
          omega
      rw [List.getElem?_append_right (by rw [hfirst]; exact hge), hfirst]
      have hk2 : k - batchSize < ((v :: vs).drop batchSize).length := by
        rw [List.length_drop]
        simp only [List.length_cons] at hk ⊢
        omega
      rw [ih (k - batchSize) hk2]
      have e1 : i + batchSize + (k - batchSize) = i + k := by omega
      have e2 : i + batchSize + batchSize * ((k - batchSize) / batchSize)
          = i + batchSize * (k / batchSize) := by
        simp only [batchSize] at hge ⊢
        omega
      rw [e1, e2]

theorem retry_mem_row (ora : FailureOracle) (i : Nat) :
    ∀ (batch : List (List CellValue)) (j k : Nat) (r : List CellValue),
      batch[k]? = some r → ora.rowFails (i + j + k) = false →
      WriteEvent.rowWrite (1 + i + j + k) r ∈ retryRowsIndexed ora i j batch := by
  intro batch
  induction batch with
  | nil => intro j k r hk; simp at hk
  | cons b bs ih =>
    intro j k r hk hf
    cases k with
    | zero =>
      simp only [List.getElem?_cons_zero, Option.some.injEq] at hk
      subst hk
      simp only [retryRowsIndexed]
      have hf0 : ora.rowFails (i + j) = false := by simpa using hf
      rw [if_neg (by simp [hf0])]
      simp
    | succ q =>
      have hk2 : bs[q]? = some r := by simpa using hk
      have hf2 : ora.rowFails (i + (j + 1) + q) = false := by
        rw [show i + (j + 1) + q = i + j + (q + 1) from by omega]
        exact hf
      have hmem := ih (j + 1) q r hk2 hf2
      rw [show 1 + i + (j + 1) + q = 1 + i + j + (q + 1) from by omega] at hmem
      simp only [retryRowsIndexed]
      exact List.mem_append.2 (Or.inr hmem)

theorem retry_mem_sentinel (ora : FailureOracle) (i : Nat) :
    ∀ (batch : List (List CellValue)) (j k : Nat), k < batch.length →
      ora.rowFails (i + j + k) = true →
      ora.sentinelFails (i + j + k) = false →
      WriteEvent.sentinelWrite (1 + i + j + k) ∈
        retryRowsIndexed ora i j batch := by
  intro batch
  induction batch with
  | nil => intro j k hk; simp at hk
  | cons b bs ih =>
    intro j k hk hf hs
    cases k with
    | zero =>
      simp only [retryRowsIndexed]
      have hf0 : ora.rowFails (i + j) = true := by simpa using hf
      have hs0 : ora.sentinelFails (i + j) = false := by simpa using hs
      rw [if_pos (by simp [hf0]), if_neg (by simp [hs0])]
      simp
    | succ q =>
      have hk2 : q < bs.length := by simpa using hk
      have hf2 : ora.rowFails (i + (j + 1) + q) = true := by
        rw [show i + (j + 1) + q = i + j + (q + 1) from by omega]
        exact hf
      have hs2 : ora.sentinelFails (i + (j + 1) + q) = false := by
        rw [show i + (j + 1) + q = i + j + (q + 1) from by omega]
        exact hs
      have hmem := ih (j + 1) q hk2 hf2 hs2
      rw [show 1 + i + (j + 1) + q = 1 + i + j + (q + 1) from by omega] at hmem
      simp only [retryRowsIndexed]
      exact List.mem_append.2 (Or.inr hmem)

theorem retry_no_batchWrite (ora : FailureOracle) (i : Nat) :
    ∀ (batch : List (List CellValue)) (j : Nat) (s : Nat)
      (vals : List (List CellValue)),
      WriteEvent.batchWrite s vals ∉ retryRowsIndexed ora i j batch := by
  intro batch
  induction batch with
  | nil => intro j s vals h; simp [retryRowsIndexed] at h
  | cons b bs ih =>
    intro j s vals h
    simp only [retryRowsIndexed, List.mem_append] at h
    rcases h with h1 | h2
    · by_cases hr : ora.rowFails (i + j)
      · by_cases hsf : ora.sentinelFails (i + j)
        · rw [if_pos hr, if_pos hsf] at h1
          simp at h1
        · rw [if_pos hr, if_neg hsf] at h1
          simp at h1
      · rw [if_neg hr] at h1
        simp at h1
    · exact ih (j + 1) s vals h2

theorem writeBatches_batch_le (ora : FailureOracle) :
    ∀ (i : Nat) (values : List (List CellValue)) (s : Nat)
      (vals : List (List CellValue)),
      WriteEvent.batchWrite s vals ∈ writeBatches ora i values →
      vals.length ≤ batchSize := by
  intro i values
  induction i, values using writeBatches.induct ora with
  | case1 i => intro s vals h; rw [writeBatches] at h; simp at h
  | case2 i v vs ih =>
    intro s vals h
    rw [writeBatches] at h
    rcases List.mem_append.1 h with h1 | h2
    · by_cases hb : ora.batchFails i
      · rw [if_pos hb] at h1
        exact absurd h1 (retry_no_batchWrite ora i _ 0 s vals)
      · rw [if_neg hb] at h1
        simp only [List.mem_singleton, WriteEvent.batchWrite.injEq] at h1
        rw [h1.2, List.length_take]
        omega
    · exact ih s vals h2

theorem writeBatches_mem (ora : FailureOracle) :
    ∀ (i : Nat) (values : List (List CellValue)),
      ∀ (k : Nat) (r : List CellValue), values[k]? = some r →
      ((ora.batchFails (i + batchSize * (k / batchSize)) = false →
        WriteEvent.batchWrite (1 + i + batchSize * (k / batchSize))
            ((values.drop (batchSize * (k / batchSize))).take batchSize)
          ∈ writeBatches ora i values) ∧
       (ora.batchFails (i + batchSize * (k / batchSize)) = true →
        ora.rowFails (i + k) = false →
        WriteEvent.rowWrite (1 + i + k) r ∈ writeBatches ora i values) ∧
       (ora.batchFails (i + batchSize * (k / batchSize)) = true →
        ora.rowFails (i + k) = true → ora.sentinelFails (i + k) = false →
        WriteEvent.sentinelWrite (1 + i + k) ∈ writeBatches ora i values)) := by
  intro i values
  induction i, values using writeBatches.induct ora with
  | case1 i => intro k r hk; simp at hk
  | case2 i v vs ih =>
    intro k r hk
    by_cases hklt : k < batchSize
    · have hdiv : batchSize * (k / batchSize) = 0 := by
        simp only [batchSize] at hklt ⊢
        omega
      rw [hdiv]
      simp only [Nat.add_zero, List.drop_zero]
      refine ⟨fun hb => ?_, fun hb hr => ?_, fun hb hr hs => ?_⟩
      · rw [writeBatches]
        rw [if_neg (by simp [hb])]
        simp
      · rw [writeBatches, if_pos (by simp [hb])]
        apply List.mem_append.2
        left
        have hkc : ((v :: vs).take batchSize)[k]? = some r := by
          rw [List.getElem?_take_of_lt hklt]
          exact hk
        have hm := retry_mem_row ora i ((v :: vs).take batchSize) 0 k r hkc
          (by rw [show i + 0 + k = i + k from by omega]; exact hr)
        rw [show 1 + i + 0 + k = 1 + i + k from by omega] at hm
        exact hm
      · rw [writeBatches, if_pos (by simp [hb])]
        apply List.mem_append.2
        left
        have hklen : k < (v :: vs).length := by
          obtain ⟨h, -⟩ := List.getElem?_eq_some_iff.1 hk
          exact h
        have hkc : k < ((v :: vs).take batchSize).length := by
          rw [List.length_take]
          omega
        have hm := retry_mem_sentinel ora i ((v :: vs).take batchSize) 0 k hkc
          (by rw [show i + 0 + k = i + k from by omega]; exact hr)
          (by rw [show i + 0 + k = i + k from by omega]; exact hs)
        rw [show 1 + i + 0 + k = 1 + i + k from by omega] at hm
        exact hm
    · have hge : batchSize ≤ k := by omega
      have hk2 : ((v :: vs).drop batchSize)[k - batchSize]? = some r := by
        rw [List.getElem?_drop]
        rw [show batchSize + (k - batchSize) = k from by omega]
        exact hk
      have IH := ih (k - batchSize) r hk2
      have e1 : i + batchSize + (k - batchSize) = i + k := by omega
      have e2 : i + batchSize + batchSize * ((k - batchSize) / batchSize)
          = i + batchSize * (k / batchSize) := by
        simp only [batchSize] at hge ⊢
        omega
      have e3 : 1 + (i + batchSize) + (k - batchSize) = 1 + i + k := by omega
      have e4 : 1 + (i + batchSize) +
            batchSize * ((k - batchSize) / batchSize)
          = 1 + i + batchSize * (k / batchSize) := by
        simp only [batchSize] at hge ⊢
        omega
      have e5 : ((v :: vs).drop batchSize).drop
            (batchSize * ((k - batchSize) / batchSize))
          = (v :: vs).drop (batchSize * (k / batchSize)) := by
        rw [List.drop_drop]
        rw [show batchSize + batchSize * ((k - batchSize) / batchSize)
          = batchSize * (k / batchSize) from by
            simp only [batchSize] at hge ⊢
            omega]
      refine ⟨fun hb => ?_, fun hb hr => ?_, fun hb hr hs => ?_⟩
      · rw [writeBatches]
        apply List.mem_append.2
        right
        have hm := IH.1 (by rw [e2]; exact hb)
        rw [e4, e5] at hm
        exact hm
      · rw [writeBatches]
        apply List.mem_append.2
        right
        have hm := IH.2.1 (by rw [e2]; exact hb) (by rw [e1]; exact hr)
        rw [e3] at hm
        exact hm
      · rw [writeBatches]
        apply List.mem_append.2
        right
        have hm := IH.2.2 (by rw [e2]; exact hb) (by rw [e1]; exact hr)
          (by rw [e1]; exact hs)
        rw [e3] at hm
        exact hm

theorem writeBatches_skip_not_covered (ora : FailureOracle)
    (rows : List (List CellValue)) (k : Nat) (hk : k < rows.length)
    (hb : ora.batchFails (batchSize * (k / batchSize)) = true)
    (hr : ora.rowFails k = true) (hs : ora.sentinelFails k = true) :
    (1 + k) ∉ coveredRowsAll (writeBatches ora 0 rows) := by
  rw [writeBatches_covered ora 0 rows]
  intro hmem
  obtain ⟨p, hp, hmp, hne⟩ := (mem_nonSkippedRows _ _ _).1 hmem
  have hpk : p = k := by omega
  subst hpk
  have hk2 : p < rows.length := hk
  have hg := rowStatuses_getElem ora 0 rows p hk2
  rw [List.getElem?_eq_getElem hp] at hg
  have hval := Option.some.inj hg
  apply hne
  rw [hval]
  simp only [Nat.zero_add]
  rw [if_pos hb]
  unfold rowRetryStatus
  rw [if_pos hr, if_pos hs]

/-! ## Claim theorems -/

/-- C1 (counterexample): the claim says the row-limit check rejects exactly
when the result has more than 1,048,575 rows, so a 1,000,001-row result must
pass it; the code (line 214, `resultTable.numRows() > 1000000`) rejects it
before any host write. -/
theorem c1_row_limit_counterexample :
    exportAfterTransform 1000001 = [ExportStep.rejectRowLimit] ∧
      1000001 ≤ 1048575 := by
  constructor
  · unfold exportAfterTransform
    rw [if_pos (by norm_num)]
  · norm_num

/-- C1 (amended): `outputToExcel` rejects the transform result with the
row-limit error exactly when it has more than 1,000,000 rows (not
1,048,575), and the rejection is the whole pipeline — no host write step is
reached; for at most 1,000,000 rows the row-limit check does not reject,
and a nonempty result proceeds to the host write. -/
theorem c1_row_limit_threshold (n : Nat) :
    (1000000 < n → exportAfterTransform n = [ExportStep.rejectRowLimit]) ∧
    (n ≤ 1000000 → ExportStep.rejectRowLimit ∉ exportAfterTransform n) ∧
    (n ≤ 1000000 → 0 < n →
      exportAfterTransform n = [ExportStep.hostWrite]) := by
  refine ⟨fun h => ?_, fun h => ?_, fun h h0 => ?_⟩
  · unfold exportAfterTransform
    rw [if_pos h]
  · unfold exportAfterTransform
    rw [if_neg (by omega)]
    by_cases h0 : n = 0
    · rw [if_pos (by simpa using h0)]
      simp
    · rw [if_neg (by simpa using h0)]
      simp
  · unfold exportAfterTransform
    rw [if_neg (by omega), if_neg (by simpa using Nat.pos_iff_ne_zero.1 h0)]

/-- C1 witness: the amended threshold evaluated at 1,000,001, 1,000,000 and
17 rows. -/
theorem c1_row_limit_threshold_witness :
    exportAfterTransform 1000001 = [ExportStep.rejectRowLimit] ∧
    ExportStep.rejectRowLimit ∉ exportAfterTransform 1000000 ∧
    exportAfterTransform 17 = [ExportStep.hostWrite] :=
  ⟨(c1_row_limit_threshold 1000001).1 (by norm_num),
   (c1_row_limit_threshold 1000000).2.1 (by norm_num),
   (c1_row_limit_threshold 17).2.2 (by norm_num) (by norm_num)⟩

/-- C2: full characterization of the per-cell sanitization (lines 228-262):
`null`/`undefined` and numeric `NaN` become the empty string; a non-Date
object/array becomes its JSON serialization — or the fixed placeholder if
serialization throws — which, being a string by then, also passes through the
string rules; every string has the control characters `0x00-0x08`, `0x0B`,
`0x0C`, `0x0E-0x1F` removed (tab `0x09`, newline `0x0A`, carriage return
`0x0D` kept) and is truncated to its first 32,000 characters plus
`"...(TRUNCATED)"` when the stripped string is longer than 32,000; numbers,
booleans, dates, and clean short strings are unchanged. -/
theorem c2_sanitize_characterization :
    (sanitizeCell .vnull = .vstr []) ∧
    (sanitizeCell .vnan = .vstr []) ∧
    (∀ o, sanitizeCell (.vobj o) =
      sanitizeCell (.vstr (jsonOrPlaceholder o))) ∧
    (sanitizeCell (.vobj none) = .vstr circularPlaceholder) ∧
    (∀ s, sanitizeCell (.vstr s) =
      .vstr (if 32000 < (s.filter keepChar).length
             then (s.filter keepChar).take 32000 ++ truncSuffix
             else s.filter keepChar)) ∧
    (∀ s, s.all keepChar = true → s.length ≤ 32000 →
      sanitizeCell (.vstr s) = .vstr s) ∧
    (keepChar (Char.ofNat 9) = true ∧ keepChar (Char.ofNat 10) = true ∧
      keepChar (Char.ofNat 13) = true) ∧
    (∀ c : Char, keepChar c = false ↔
      (c.toNat ≤ 8 ∨ c.toNat = 11 ∨ c.toNat = 12 ∨
        (14 ≤ c.toNat ∧ c.toNat ≤ 31))) ∧
    (∀ x, sanitizeCell (.vnum x) = .vnum x) ∧
    (∀ b, sanitizeCell (.vbool b) = .vbool b) ∧
    (∀ ms, sanitizeCell (.vdate ms) = .vdate ms) := by
  refine ⟨rfl, rfl, fun o => rfl, ?_, fun s => rfl, fun s h1 h2 => ?_, ?_,
    fun c => ?_, fun x => rfl, fun b => rfl, fun ms => rfl⟩
  · show CellValue.vstr (sanStr circularPlaceholder) = _
    have : sanStr circularPlaceholder = circularPlaceholder := by decide
    rw [this]
  · show CellValue.vstr (sanStr s) = _
    unfold sanStr
    rw [filter_keepChar_of_all s h1, if_neg (by omega)]
  · exact ⟨by decide, by decide, by decide⟩
  · unfold keepChar isBannedCtl
    simp only [Bool.not_eq_false', Bool.or_eq_true, Bool.and_eq_true,
      decide_eq_true_eq, beq_iff_eq]
    tauto

/-- C2 witness: the string clauses at concrete inputs (a clean short string
is unchanged; `null` maps to the empty string). -/
theorem c2_sanitize_characterization_witness :
    sanitizeCell (.vstr "abc".toList) = .vstr "abc".toList ∧
      sanitizeCell .vnull = .vstr [] :=
  ⟨c2_sanitize_characterization.2.2.2.2.2.1 "abc".toList (by decide)
      (by decide),
    c2_sanitize_characterization.1⟩

theorem sanStr_nil : sanStr [] = [] := by decide

/-- C3: the per-cell sanitization is idempotent — sanitizing an
already-sanitized value returns it unchanged (in particular a string
truncated with the `"...(TRUNCATED)"` suffix re-sanitizes to itself, because
the stripped truncation of the 32,014-character result reproduces the same
prefix and suffix). -/
theorem c3_sanitize_idempotent (v : CellValue) :
    sanitizeCell (sanitizeCell v) = sanitizeCell v := by
  cases v <;> simp [sanitizeCell, sanStr_idem, sanStr_nil]

/-- C6 (counterexample): the claim says the pre-write lookup treats every
outcome other than "not found" as a collision or a rethrown error; but for a
host error with code `"GeneralException"` (not `ItemNotFound`) whose message
does not mention "already exists", the catch block at lines 277-285 falls
through and the write proceeds. -/
theorem c6_lookup_counterexample :
    checkNameCollision "MyTable".toList
        (TableLookup.hostError "GeneralException".toList
          "An internal error occurred.".toList) = Except.ok () ∧
      "GeneralException".toList ≠ itemNotFoundCode := by
  constructor
  · simp only [checkNameCollision]
    rw [if_neg (by decide), if_neg (by decide)]
  · decide

/-- C6 (amended): the pre-write lookup rejects with the collision error when
a table with the requested name exists, treats the host's `ItemNotFound` as
success (proceed to create), rethrows a lookup error whose message contains
"already exists", and silently ignores every other lookup error, letting the
write proceed; in particular every unused name (lookup yields `ItemNotFound`)
proceeds. -/
theorem c6_name_collision_amended (name code msg : List Char) :
    (checkNameCollision name TableLookup.success =
      Except.error (collisionMessage name)) ∧
    (checkNameCollision name
        (TableLookup.hostError itemNotFoundCode msg) = Except.ok ()) ∧
    (code ≠ itemNotFoundCode →
      hasSub msg alreadyExistsNeedle = true →
      checkNameCollision name (TableLookup.hostError code msg) =
        Except.error msg) ∧
    (hasSub msg alreadyExistsNeedle = false →
      checkNameCollision name (TableLookup.hostError code msg) =
        Except.ok ()) := by
  refine ⟨?_, ?_, fun hc hm => ?_, fun hm => ?_⟩
  · simp only [checkNameCollision]
    rw [if_pos ?_]
    unfold collisionMessage
    apply hasSub_append_right
    decide
  · simp only [checkNameCollision]
    simp
  · simp only [checkNameCollision]
    rw [if_neg hc, if_pos hm]
  · simp only [checkNameCollision]
    by_cases hc : code = itemNotFoundCode
    · rw [if_pos hc]
    · rw [if_neg hc, if_neg (by simp [hm])]

/-- C6 witness: the amended lookup behaviour at concrete inputs. -/
theorem c6_name_collision_amended_witness :
    checkNameCollision "T".toList
        (TableLookup.hostError "GeneralException".toList
          "x already exists y".toList) =
      Except.error "x already exists y".toList ∧
    checkNameCollision "T".toList
        (TableLookup.hostError "ItemNotFound".toList "not found".toList) =
      Except.ok () :=
  ⟨(c6_name_collision_amended "T".toList "GeneralException".toList
      "x already exists y".toList).2.2.1 (by decide) (by decide),
   (c6_name_collision_amended "T".toList "GeneralException".toList
      "not found".toList).2.1⟩

/-- C9 (code bug evaluation): run the settings phase after a successful write
of table `MyTable` with query `dt`, message area empty (line 186), and a
failing `saveAsync` commit.  The recipe is stored under the table name and
the operation still ends in success, but the final message the user is left
with is the bare success text: the warning was appended to the then-empty
message area (line 348) and then overwritten by the unconditional success
assignment (line 360), so no warning is appended to the final success
message. -/
theorem c9_warning_overwritten_eval :
    (settingsPhase [] ⟨[]⟩ "MyTable".toList "dt".toList true).finalMessage =
      successMessage "MyTable".toList ∧
    hasSub (settingsPhase [] ⟨[]⟩ "MyTable".toList "dt".toList
        true).finalMessage warningSuffix = false ∧
    (settingsPhase [] ⟨[]⟩ "MyTable".toList "dt".toList
        true).duringSaveMessage = warningSuffix ∧
    (settingsPhase [] ⟨[]⟩ "MyTable".toList "dt".toList
        true).settings.entries = [("MyTable".toList, "dt".toList)] := by
  refine ⟨rfl, by decide, by decide, by decide⟩

/-- C7 (code bug evaluation): previewing table `Table1`, then previewing a
different table `Table2`.  The claim (and the comment at line 665) says the
old handler is removed before a new one is attached; but `runVegaPreview`
stores the new table name in `vegaCurrentTableName` (line 625) before calling
`setupVegaAutoUpdate` (line 631), so the removal condition
`vegaCurrentTableName !== tableName` is always false: the old subscription on
`Table1` stays live, nothing is attached for `Table2`, and the second preview
emits no remove or attach event. -/
theorem c7_switch_table_bug_eval :
    (vegaRun [VegaOp.preview "Table1" "SpecA",
        VegaOp.preview "Table2" "SpecB"]).subs = [(0, "Table1")] ∧
    (vegaRun [VegaOp.preview "Table1" "SpecA",
        VegaOp.preview "Table2" "SpecB"]).vegaCurrentTableName =
      some "Table2" ∧
    (vegaStep (vegaRun [VegaOp.preview "Table1" "SpecA"])
        (VegaOp.preview "Table2" "SpecB")).2 =
      [VegaEvent.renderChart (some "Table2") (some "SpecB")] := by
  refine ⟨by decide, by decide, by decide⟩

/-- C10: for every query-editor invocation, an expression consisting only of
whitespace (including the empty expression) defaults to `dt`, the identity
transform — the `if (!code || code.trim() === "") code = "dt";` branch shared
by `runPreview` (line 156) and `outputToExcel` (line 189). -/
theorem c10_empty_query_default (code : List Char)
    (h : code.all isJsWhitespace = true) :
    defaultQueryCode code = "dt".toList := by
  unfold defaultQueryCode
  cases code with
  | nil => rw [if_pos (by simp)]
  | cons c cs =>
    rw [if_pos ?_]
    apply Bool.or_eq_true_iff.2
    right
    apply List.isEmpty_iff.2
    unfold jsTrim
    have hdrop : (c :: cs).dropWhile isJsWhitespace = [] :=
      List.dropWhile_eq_nil_iff.2 (fun x hx => (List.all_eq_true.1 h) x hx)
    rw [hdrop]
    simp

/-- C10 witness: a whitespace-only expression defaults to `dt`. -/
theorem c10_empty_query_default_witness :
    defaultQueryCode " \t\n ".toList = "dt".toList :=
  c10_empty_query_default " \t\n ".toList (by decide)

/-- C8: whenever the host table-change notification fires with a live
subscription, the attached callback re-renders with the table name and spec
read from the mutable session globals at fire time — which are exactly the
arguments of the most recent `runVegaPreview` (not the values captured when
the subscription was created); if the stored spec or table has been replaced
since subscription, the replacement is rendered. -/
theorem c8_fire_uses_current_state (ops : List VegaOp) (t s : String)
    (hlast : lastPreview ops = some (t, s))
    (hsub : (vegaRun ops).subs ≠ []) :
    (fireTableChanged (vegaRun ops)).2 =
      [VegaEvent.renderChart (some t) (some s)] := by
  obtain ⟨h1, h2, _⟩ := vegaRun_inv ops
  rw [hlast] at h1 h2
  unfold fireTableChanged
  rw [if_neg (by simpa [List.isEmpty_iff] using hsub)]
  rw [h1, h2]
  simp

/-- C8 witness: after previewing `Table1`/`SpecA` and then `Table2`/`SpecB`
(which replaces the stored table and spec but keeps the subscription created
for `Table1`), a table-change event renders `Table2` with `SpecB`. -/
theorem c8_fire_uses_current_state_witness :
    (fireTableChanged (vegaRun [VegaOp.preview "Table1" "SpecA",
        VegaOp.preview "Table2" "SpecB"])).2 =
      [VegaEvent.renderChart (some "Table2") (some "SpecB")] :=
  c8_fire_uses_current_state
    [VegaOp.preview "Table1" "SpecA", VegaOp.preview "Table2" "SpecB"]
    "Table2" "SpecB" (by decide) (by decide)

/-- C4: the batch/retry policy of the write loop (lines 301-334), for every
failure pattern: every committed batch holds at most 500 rows and batches are
the consecutive 500-row slices of the input; when a row's batch sync does not
fail, the whole slice containing it is committed in one batch write at its
absolute sheet offset; when the batch sync fails, each row of that batch is
retried individually — a row whose own sync succeeds is committed at sheet
row `1 + k`, a row whose sync fails gets the `"ERROR WRITING ROW"` sentinel
committed into its first cell, and a row whose sentinel sync also fails is
skipped (no commit ever touches its sheet row) while the loop continues: all
other rows' outcomes are unaffected and later batches still run, so the
operation never aborts. -/
theorem c4_batch_retry_policy (ora : FailureOracle)
    (rows : List (List CellValue)) (k : Nat) (r : List CellValue)
    (hk : rows[k]? = some r) :
    (∀ s vals, WriteEvent.batchWrite s vals ∈ writeBatches ora 0 rows →
      vals.length ≤ batchSize) ∧
    (ora.batchFails (batchSize * (k / batchSize)) = false →
      WriteEvent.batchWrite (1 + batchSize * (k / batchSize))
          ((rows.drop (batchSize * (k / batchSize))).take batchSize)
        ∈ writeBatches ora 0 rows) ∧
    (ora.batchFails (batchSize * (k / batchSize)) = true →
      ora.rowFails k = false →
      WriteEvent.rowWrite (1 + k) r ∈ writeBatches ora 0 rows) ∧
    (ora.batchFails (batchSize * (k / batchSize)) = true →
      ora.rowFails k = true → ora.sentinelFails k = false →
      WriteEvent.sentinelWrite (1 + k) ∈ writeBatches ora 0 rows) ∧
    (ora.batchFails (batchSize * (k / batchSize)) = true →
      ora.rowFails k = true → ora.sentinelFails k = true →
      (1 + k) ∉ coveredRowsAll (writeBatches ora 0 rows)) := by
  have H := writeBatches_mem ora 0 rows k r hk
  simp only [Nat.zero_add, Nat.add_zero] at H
  have hklen : k < rows.length := by
    obtain ⟨h, -⟩ := List.getElem?_eq_some_iff.1 hk
    exact h
  exact ⟨fun s vals h => writeBatches_batch_le ora 0 rows s vals h,
    H.1, H.2.1, H.2.2,
    fun hb hr hs => writeBatches_skip_not_covered ora rows k hklen hb hr hs⟩

/-- C4 witness: one row whose batch sync and row sync fail but whose sentinel
sync succeeds receives the sentinel commit at its sheet row. -/
theorem c4_batch_retry_policy_witness :
    WriteEvent.sentinelWrite 1 ∈
      writeBatches ⟨fun _ => true, fun _ => true, fun _ => false⟩ 0
        [[CellValue.vnull]] :=
  (c4_batch_retry_policy ⟨fun _ => true, fun _ => true, fun _ => false⟩
    [[CellValue.vnull]] 0 [CellValue.vnull] rfl).2.2.2.1 rfl rfl rfl

/-- C5: per-row accounting of the write loop, for every failure pattern: the
outcome list assigns each input row index exactly one outcome
(`written`/`sentinel`/`skipped`), the written count plus the sentinel count
plus the skipped count equals the input row count, and the sheet rows
committed by the loop's events are exactly `1 + k` for the non-skipped
indices `k`, in order and each exactly once — every row is handled once at
its own sheet offset (header offset plus its index), and no row is lost or
written twice. -/
theorem c5_row_accounting (ora : FailureOracle)
    (rows : List (List CellValue)) :
    (rowStatuses ora 0 rows).length = rows.length ∧
    ((rowStatuses ora 0 rows).count RowOutcome.written +
      ((rowStatuses ora 0 rows).count RowOutcome.sentinel +
        (rowStatuses ora 0 rows).count RowOutcome.skipped) = rows.length) ∧
    coveredRowsAll (writeBatches ora 0 rows) =
      nonSkippedRows 1 (rowStatuses ora 0 rows) := by
  refine ⟨rowStatuses_length ora 0 rows, ?_, ?_⟩
  · rw [rowOutcome_count_partition]
    exact rowStatuses_length ora 0 rows
  · have h := writeBatches_covered ora 0 rows
    simpa using h

end Juizo
